import Mathlib

/-!
Shallow embedding of the Alpicool BLE fridge protocol engine
(`custom_components/alpicool_ble/api.py`, class `FridgeApi`) and proofs of
the specified properties of its packet codec, status decoder, command
builder and poll loop.

Wire bytes are modelled as `Nat` (values 0..255); status-record values as
`Int` (Python ints) or `Bool`.  Fallible operations (a `bytearray` write of
an out-of-range value raises `ValueError`; a too-short status payload
raises `IndexError`) are modelled with `Option`.
-/

namespace Alpicool

set_option autoImplicit false

/-! ### Command codes (`const.py`, class `Request`) -/

def RequestBIND : Nat := 0x00

def RequestQUERY : Nat := 0x01

def RequestSET : Nat := 0x02

def RequestRESET : Nat := 0x04

def RequestSETLEFT : Nat := 0x05

def RequestSETRIGHT : Nat := 0x06

/-! ### Checksum and packet building (`FridgeApi._checksum`, `FridgeApi._build_packet`) -/

/-- Embeds `FridgeApi._checksum`: `sum(data) & 0xFFFF`, the 2-byte checksum value. -/
def checksum (data : List Nat) : Nat :=
  data.sum % 65536

/-- Embeds `FridgeApi._build_packet`.  BIND and QUERY return fixed byte strings.
Every other command is built dynamically: preamble `FE FE`, a length byte
`len([cmd] + data) + 2`, the command byte, the payload, then the 16-bit
checksum of all bytes so far, big-endian.  `bytearray([cmd])` and
`packet.append(length)` raise `ValueError` when the value exceeds 255, which
is modelled as `none`. -/
def buildPacket (cmd : Nat) (data : List Nat) : Option (List Nat) :=
  if cmd = RequestBIND then some [0xfe, 0xfe, 0x03, 0x00, 0x01, 0xff]
  else if cmd = RequestQUERY then some [0xfe, 0xfe, 0x03, 0x01, 0x02, 0x00]
  else
    let payload := cmd :: data
    let length := payload.length + 2
    if cmd ≤ 255 ∧ length ≤ 255 then
      let packet := 0xfe :: 0xfe :: length :: payload
      let cks := checksum packet
      some (packet ++ [cks / 256, cks % 256])
    else none

/-! ### Frame reassembly (`FridgeApi._notification_handler`) -/

/-- Embeds `bytearray.find(b"\xfe\xfe")`: index of the first occurrence of the
two-byte preamble, `none` when absent (Python returns `-1`). -/
def findPre : List Nat → Option Nat
  | a :: b :: rest =>
      if a = 0xfe ∧ b = 0xfe then some 0 else (findPre (b :: rest)).map (· + 1)
  | _ => none

/-- Embeds the `while self._notification_buffer:` loop of
`FridgeApi._notification_handler`: repeatedly locate the preamble (clearing
the buffer when there is none), wait when fewer than 3 bytes or fewer than
`3 + buffer[2]` bytes are present, otherwise slice out one complete packet
and continue.  The first argument is recursion fuel; every iteration that
recurses removes at least 3 bytes from the buffer, so fuel equal to the
buffer length never runs out (see `extractLoop_fuel_irrelevant`). -/
def extractLoop : Nat → List Nat → List Nat × List (List Nat)
  | _, [] => ([], [])
  | 0, buf => (buf, [])
  | fuel + 1, buf =>
      (findPre buf).elim ([], []) fun i =>
        let b2 := buf.drop i
        if b2.length < 3 then (b2, [])
        else
          let len := b2.getD 2 0
          if b2.length < 3 + len then (b2, [])
          else
            let pkt := b2.take (3 + len)
            let r := extractLoop fuel (b2.drop (3 + len))
            (r.1, pkt :: r.2)

/-- Runs the extraction loop on a buffer, returning the leftover buffer and
the complete packets sliced out of it, in order. -/
def extractPackets (buf : List Nat) : List Nat × List (List Nat) :=
  extractLoop buf.length buf

/-- Embeds one invocation of `FridgeApi._notification_handler`: append the
notified bytes to the receive buffer, then run the extraction loop.  Returns
the new buffer contents and the packets extracted by this invocation. -/
def notificationHandler (buffer data : List Nat) : List Nat × List (List Nat) :=
  extractPackets (buffer ++ data)

/-- Feeds a sequence of byte chunks through successive invocations of the
notification handler, starting from the given buffer; returns the final
buffer and all packets extracted, in order. -/
def feedAll (buffer : List Nat) (chunks : List (List Nat)) : List Nat × List (List Nat) :=
  match chunks with
  | [] => (buffer, [])
  | c :: cs =>
      let r := notificationHandler buffer c
      let r2 := feedAll r.1 cs
      (r2.1, r.2 ++ r2.2)

/-- Embeds `cmd = current_packet[3]`. -/
def frameCmd (pkt : List Nat) : Nat :=
  pkt.getD 3 0

/-- Embeds `payload = current_packet[4:]`. -/
def framePayload (pkt : List Nat) : List Nat :=
  pkt.drop 4

/-! ### Status record (the `self.status` dict) -/

/-- Value stored in the status dict: Python `bool` or `int`. -/
inductive FieldVal where
  | b (x : Bool)
  | i (x : Int)
deriving DecidableEq, Repr

/-- The status dict, modelled as an insertion-ordered association list with
unique keys (Python `dict` semantics). -/
abbrev StatusRecord := List (String × FieldVal)

/-- Dict lookup: `d[k]` / `k in d`, as an `Option`. -/
def getKey : StatusRecord → String → Option FieldVal
  | [], _ => none
  | (k', v) :: s, k => if k = k' then some v else getKey s k

/-- Dict assignment `d[k] = v`: replace the value at an existing key in
place, or append a new binding at the end (insertion order). -/
def setKey : StatusRecord → String → FieldVal → StatusRecord
  | [], k, v => [(k, v)]
  | (k', v') :: s, k, v =>
      if k = k' then (k, v) :: s else (k', v') :: setKey s k v

/-- Dict bulk update `d.update(other)`: assign every binding of `other`, in
order. -/
def updateAll (s : StatusRecord) (other : StatusRecord) : StatusRecord :=
  other.foldl (fun acc p => setKey acc p.1 p.2) s

/-! ### Status decoding (`_to_signed_byte`, `FridgeApi._decode_status`) -/

/-- Embeds `_to_signed_byte`: reinterpret an unsigned byte 0..255 as a signed
byte −128..127. -/
def toSignedByte (b : Nat) : Int :=
  if b > 127 then (b : Int) - 256 else (b : Int)

/-- The 18 unconditionally decoded single-zone fields, from payload offsets
0 through 17 (the `base_status` dict literal of `_decode_status`). -/
def baseFields (p : List Nat) : StatusRecord :=
  [("locked", .b (p.getD 0 0 ≠ 0)),
   ("powered_on", .b (p.getD 1 0 ≠ 0)),
   ("run_mode", .i (p.getD 2 0)),
   ("bat_saver", .i (p.getD 3 0)),
   ("left_target", .i (toSignedByte (p.getD 4 0))),
   ("temp_max", .i (toSignedByte (p.getD 5 0))),
   ("temp_min", .i (toSignedByte (p.getD 6 0))),
   ("left_ret_diff", .i (toSignedByte (p.getD 7 0))),
   ("start_delay", .i (p.getD 8 0)),
   ("unit", .i (p.getD 9 0)),
   ("left_tc_hot", .i (toSignedByte (p.getD 10 0))),
   ("left_tc_mid", .i (toSignedByte (p.getD 11 0))),
   ("left_tc_cold", .i (toSignedByte (p.getD 12 0))),
   ("left_tc_halt", .i (toSignedByte (p.getD 13 0))),
   ("left_current", .i (toSignedByte (p.getD 14 0))),
   ("bat_percent", .i (p.getD 15 0)),
   ("bat_vol_int", .i (p.getD 16 0)),
   ("bat_vol_dec", .i (p.getD 17 0))]

/-- The dual-zone fields decoded when `len(payload) >= 28` (the
`dual_zone_status` dict literal of `_decode_status`). -/
def dualFields (p : List Nat) : StatusRecord :=
  [("right_target", .i (toSignedByte (p.getD 18 0))),
   ("unknown_19", .i (p.getD 19 0)),
   ("unknown_20", .i (p.getD 20 0)),
   ("right_ret_diff", .i (toSignedByte (p.getD 21 0))),
   ("right_tc_hot", .i (toSignedByte (p.getD 22 0))),
   ("right_tc_mid", .i (toSignedByte (p.getD 23 0))),
   ("right_tc_cold", .i (toSignedByte (p.getD 24 0))),
   ("right_tc_halt", .i (toSignedByte (p.getD 25 0))),
   ("right_current", .i (toSignedByte (p.getD 26 0))),
   ("running_status", .i (p.getD 27 0))]

/-- The trailing unknown fields decoded when `len(payload) >= 31` (the
`extra_unknown_status` dict literal of `_decode_status`). -/
def extraFields (p : List Nat) : StatusRecord :=
  [("unknown_28", .i (p.getD 28 0)),
   ("unknown_29", .i (p.getD 29 0)),
   ("unknown_30", .i (p.getD 30 0))]

/-- Embeds `FridgeApi._decode_status` up to its `except IndexError` handler:
`payload[0]` .. `payload[17]` are read unconditionally, so a payload shorter
than 18 bytes raises `IndexError` before `self.status` is touched (`none`);
otherwise the base fields — and, behind explicit length guards, the
dual-zone and extra fields — are merged into the status dict. -/
def decodeStatusResult (status : StatusRecord) (payload : List Nat) :
    Option StatusRecord :=
  if payload.length < 18 then none
  else
    let s1 := updateAll status (baseFields payload)
    let s2 := if 28 ≤ payload.length then updateAll s1 (dualFields payload) else s1
    let s3 := if 31 ≤ payload.length then updateAll s2 (extraFields payload) else s2
    some s3

/-- The status dict after `_decode_status` returns: unchanged when the decode
raised `IndexError` (caught and logged), updated otherwise. -/
def decodeStatus (status : StatusRecord) (payload : List Nat) : StatusRecord :=
  (decodeStatusResult status payload).getD status

/-! ### Set-payload building (`FridgeApi._build_set_other_payload`, `async_set_values`) -/

/-- Embeds Python `int(v)` on a dict value: `int(True) = 1`, `int(False) = 0`,
ints unchanged. -/
def fvInt : FieldVal → Int
  | .b true => 1
  | .b false => 0
  | .i x => x

/-- Embeds `current_status.get(key, default)` followed by `int(...)`. -/
def dictGetInt (s : StatusRecord) (k : String) (d : Int) : Int :=
  match getKey s k with
  | some v => fvInt v
  | none => d

/-- Embeds the local `to_unsigned_byte`: `x & 0xFF` on a Python int, i.e. the
nonnegative residue of `x` modulo 256 (two's-complement reinterpretation). -/
def toUnsignedByte (x : Int) : Int :=
  x % 256

/-- Embeds the `bytearray([...])` constructor's range validation: every entry
must be a byte 0..255, otherwise Python raises `ValueError` (modelled as
`none`). -/
def bytearrayOf (xs : List Int) : Option (List Int) :=
  if xs.all (fun x => 0 ≤ x ∧ x ≤ 255) then some xs else none

/-- Embeds `FridgeApi._build_set_other_payload`: merge `new_values` over a
copy of the current status, serialize the 14-byte single-zone block, and
append the 11-byte right-zone block exactly when `"right_current"` is a key
of the merged status.  Both blocks are built with `bytearray([...])`, whose
`ValueError` on an entry outside 0..255 (possible only for the six unmasked
`int(...)` fields — the `to_unsigned_byte` fields are already reduced mod
256) is modelled as `none`. -/
def buildSetOtherPayload (status newValues : StatusRecord) : Option (List Int) :=
  let cur := updateAll status newValues
  (bytearrayOf
    [dictGetInt cur "locked" 0,
     dictGetInt cur "powered_on" 1,
     dictGetInt cur "run_mode" 0,
     dictGetInt cur "bat_saver" 0,
     toUnsignedByte (dictGetInt cur "left_target" 0),
     toUnsignedByte (dictGetInt cur "temp_max" 20),
     toUnsignedByte (dictGetInt cur "temp_min" (-20)),
     toUnsignedByte (dictGetInt cur "left_ret_diff" 1),
     dictGetInt cur "start_delay" 0,
     dictGetInt cur "unit" 0,
     toUnsignedByte (dictGetInt cur "left_tc_hot" 0),
     toUnsignedByte (dictGetInt cur "left_tc_mid" 0),
     toUnsignedByte (dictGetInt cur "left_tc_cold" 0),
     toUnsignedByte (dictGetInt cur "left_tc_halt" 0)]).elim none fun data =>
    if (getKey cur "right_current").isSome then
      (bytearrayOf
        [toUnsignedByte (dictGetInt cur "right_target" 0),
         0,
         0,
         toUnsignedByte (dictGetInt cur "right_ret_diff" 1),
         toUnsignedByte (dictGetInt cur "right_tc_hot" 0),
         toUnsignedByte (dictGetInt cur "right_tc_mid" 0),
         toUnsignedByte (dictGetInt cur "right_tc_cold" 0),
         toUnsignedByte (dictGetInt cur "right_tc_halt" 0),
         0,
         0,
         0]).elim none fun rightZoneData => some (data ++ rightZoneData)
    else some data

/-- Stated from the claim's words: overlay the change map over the baseline
status — a key present in the changes takes the changed value, a key absent
from the changes takes the baseline value. -/
def overlay (status changes : StatusRecord) (k : String) : Option FieldVal :=
  match getKey changes k with
  | some v => some v
  | none => getKey status k

/-- Stated from the claim's words: the merged value of a key as an int, with
the stated default when the key is present in neither map. -/
def overlayInt (status changes : StatusRecord) (k : String) (d : Int) : Int :=
  match overlay status changes k with
  | some v => fvInt v
  | none => d

/-- Stated from the claim's words: the 14-byte single-zone block, each key
taking the merged value (defaults `powered_on=1`, `temp_max=20`,
`temp_min=-20`, `left_ret_diff=1`, all `tc_*=0` when absent), temperature
fields reduced to an unsigned byte by two's-complement reinterpretation. -/
def claimSingleZoneBlock (status changes : StatusRecord) : List Int :=
  [overlayInt status changes "locked" 0,
   overlayInt status changes "powered_on" 1,
   overlayInt status changes "run_mode" 0,
   overlayInt status changes "bat_saver" 0,
   toUnsignedByte (overlayInt status changes "left_target" 0),
   toUnsignedByte (overlayInt status changes "temp_max" 20),
   toUnsignedByte (overlayInt status changes "temp_min" (-20)),
   toUnsignedByte (overlayInt status changes "left_ret_diff" 1),
   overlayInt status changes "start_delay" 0,
   overlayInt status changes "unit" 0,
   toUnsignedByte (overlayInt status changes "left_tc_hot" 0),
   toUnsignedByte (overlayInt status changes "left_tc_mid" 0),
   toUnsignedByte (overlayInt status changes "left_tc_cold" 0),
   toUnsignedByte (overlayInt status changes "left_tc_halt" 0)]

/-- Stated from the claim's words: the 11 further bytes appended for a
dual-zone device — `right_target`, two zero bytes, `right_ret_diff`, the
four `right_tc_*` fields, three zero bytes. -/
def claimRightZoneBlock (status changes : StatusRecord) : List Int :=
  [toUnsignedByte (overlayInt status changes "right_target" 0),
   0,
   0,
   toUnsignedByte (overlayInt status changes "right_ret_diff" 1),
   toUnsignedByte (overlayInt status changes "right_tc_hot" 0),
   toUnsignedByte (overlayInt status changes "right_tc_mid" 0),
   toUnsignedByte (overlayInt status changes "right_tc_cold" 0),
   toUnsignedByte (overlayInt status changes "right_tc_halt" 0),
   0,
   0,
   0]

/-- What a call of `async_set_values` looks like to its caller: `ok` when the
Python method returns `None` normally, `error` when an exception escapes to
the caller. -/
inductive CallOutcome where
  | ok
  | error
deriving DecidableEq, Repr

/-- Embeds `FridgeApi.async_set_values`: when the status dict is empty the
method logs at debug level and returns immediately (a plain `return`, no
exception), writing nothing; otherwise it builds the SET payload — an
uncaught `ValueError` from the `bytearray` build propagates to the caller
with nothing written — and sends it.  The second component is the payload
written to the transport (wrapped via `_build_packet(Request.SET, payload)`
before the write), `none` when nothing is written. -/
def asyncSetValues (status newValues : StatusRecord) :
    CallOutcome × Option (List Int) :=
  if status = ([] : StatusRecord) then (.ok, none)
  else
    (buildSetOtherPayload status newValues).elim (.error, none) fun payload =>
      (.ok, some payload)

/-! ### Poll loop (`FridgeApi.start_polling`) -/

/-- The poll-loop state touched by one iteration of `start_polling`:
`self.status`, `self.is_available`, `self._last_successful_update_time`. -/
structure PollState where
  status : StatusRecord
  avail : Bool
  last : Int
deriving DecidableEq, Repr

/-- The environment of one iteration: whether the client was connected at the
top of the loop, the outcomes of the reconnect attempt and of
`update_status()`, and the monotonic-clock readings taken at the three call
sites. -/
structure PollEnv where
  connected0 : Bool
  reconnectOk : Bool
  queryOk : Bool
  tReconnect : Int
  tQuery : Int
  tCheck : Int
deriving DecidableEq, Repr

/-- Step 1 of an iteration: if not connected, attempt to reconnect; on
success mark available and stamp the last-success time. -/
def pollReconnect (s : PollState) (e : PollEnv) : PollState :=
  if ¬ e.connected0 ∧ e.reconnectOk then
    { s with avail := true, last := e.tReconnect }
  else s

/-- Whether the client is connected after step 1. -/
def pollConnected (e : PollEnv) : Bool :=
  e.connected0 || e.reconnectOk

/-- Steps 1–2 of an iteration: after the reconnect attempt, if connected and
`update_status()` succeeded, stamp the last-success time and mark
available. -/
def pollQuery (s : PollState) (e : PollEnv) : PollState :=
  if pollConnected e = true ∧ e.queryOk = true then
    { pollReconnect s e with last := e.tQuery, avail := true }
  else pollReconnect s e

/-- Step 3 of an iteration: if more than 300 seconds have elapsed since the
last success and the device is currently marked available, mark it
unavailable and clear the whole status dict. -/
def pollCheckStale (s : PollState) (t : Int) : PollState :=
  if t - s.last > 300 ∧ s.avail = true then
    { s with avail := false, status := [] }
  else s

/-- One full iteration of the `while True:` loop of `start_polling`
(reconnect attempt, query, staleness check). -/
def startPollingIteration (s : PollState) (e : PollEnv) : PollState :=
  pollCheckStale (pollQuery s e) e.tCheck

/-- Receive-buffer invariant: the buffer is empty, or it begins with the
two-byte preamble and holds fewer bytes than the total frame length implied
by its length byte. -/
def BufInv (b : List Nat) : Prop :=
  b = [] ∨ (b.take 2 = [0xfe, 0xfe] ∧ b.length < 3 + b.getD 2 0)

/-! ## Helper lemmas about the status dict -/

theorem getKey_setKey (s : StatusRecord) (k k' : String) (v : FieldVal) :
    getKey (setKey s k v) k' = if k' = k then some v else getKey s k' := by
  induction s with
  | nil => simp [setKey, getKey]
  | cons p s ih =>
      obtain ⟨k₀, v₀⟩ := p
      by_cases hk : k = k₀
      · subst hk
        by_cases h : k' = k <;> simp [setKey, getKey, h]
      · by_cases h1 : k' = k₀ <;> by_cases h2 : k' = k <;>
          simp [setKey, getKey, hk, h1, h2, ih] <;> simp_all

theorem getKey_eq_none (s : StatusRecord) (k : String)
    (h : ∀ p ∈ s, p.1 ≠ k) : getKey s k = none := by
  induction s with
  | nil => rfl
  | cons p s ih =>
      obtain ⟨k₀, v₀⟩ := p
      have hk : k ≠ k₀ := fun he => h (k₀, v₀) (by simp) (by simp [he])
      simp [getKey, hk]
      exact ih fun q hq => h q (by simp [hq])

theorem getKey_updateAll (nv : StatusRecord) :
    ∀ (s : StatusRecord) (k : String), (nv.map Prod.fst).Nodup →
      getKey (updateAll s nv) k =
        match getKey nv k with
        | some v => some v
        | none => getKey s k := by
  induction nv with
  | nil => intro s k _; simp [updateAll, getKey]
  | cons p nv ih =>
      intro s k hnd
      obtain ⟨k₀, v₀⟩ := p
      have hnd' : (nv.map Prod.fst).Nodup := (List.nodup_cons.mp hnd).2
      have hk₀ : k₀ ∉ nv.map Prod.fst := (List.nodup_cons.mp hnd).1
      have hstep : updateAll s ((k₀, v₀) :: nv) = updateAll (setKey s k₀ v₀) nv := rfl
      rw [hstep, ih _ k hnd', getKey_setKey]
      by_cases h : k = k₀
      · subst h
        have hnone : getKey nv k = none :=
          getKey_eq_none nv k fun q hq he =>
            hk₀ (List.mem_map.mpr ⟨q, hq, he⟩)
        simp [getKey, hnone]
      · simp [getKey, h]

/-! ## C1 and C2: packet building -/

set_option maxRecDepth 4000 in
/-- Claim C1 (corrected), counterexample: the claim promises an encoded
packet with "a length byte equal to len(payload) + 3" for every payload, but
for a 253-byte payload that length is 256, which does not fit a byte:
`packet.append(length)` raises `ValueError` and no packet is returned. -/
theorem C1_buildPacket_length_overflow_cex :
    buildPacket RequestSET (List.replicate 253 0) = none := by decide

/-- Claim C1 (amended): for every command byte other than BIND and QUERY and
every payload of at most 252 bytes, the encoded packet is exactly the two
preamble bytes `FE FE`, a length byte `len(payload) + 3`, the command byte,
the payload, then the sum of all bytes emitted so far modulo 65536 as two
big-endian bytes. -/
theorem C1_buildPacket_dynamic_layout (cmd : Nat) (data : List Nat)
    (h0 : cmd ≠ RequestBIND) (h1 : cmd ≠ RequestQUERY)
    (hbyte : cmd ≤ 255) (hlen : data.length ≤ 252) :
    buildPacket cmd data =
      some (0xfe :: 0xfe :: (data.length + 3) :: cmd :: data ++
        [(0xfe + 0xfe + (data.length + 3) + cmd + data.sum) % 65536 / 256,
         (0xfe + 0xfe + (data.length + 3) + cmd + data.sum) % 65536 % 256]) := by
  have hceq : (cmd :: data).length + 2 = data.length + 3 := by simp
  simp only [buildPacket, if_neg h0, if_neg h1, checksum]
  rw [if_pos ⟨hbyte, by omega⟩]
  rw [hceq]
  have hsum : (0xfe :: 0xfe :: (data.length + 3) :: cmd :: data).sum =
      0xfe + 0xfe + (data.length + 3) + cmd + data.sum := by
    simp [List.sum_cons]
    omega
  rw [hsum]

/-- Witness for C1: at command SET and payload `[10]` the four hypotheses
hold and the theorem yields the concrete packet `FE FE 04 02 0A 02 0C`. -/
theorem C1_buildPacket_dynamic_layout_witness :
    2 ≠ RequestBIND ∧ 2 ≠ RequestQUERY ∧ 2 ≤ 255 ∧
      ([10] : List Nat).length ≤ 252 ∧
      buildPacket 2 [10] = some [0xfe, 0xfe, 0x04, 0x02, 0x0a, 0x02, 0x0c] :=
  ⟨by decide, by decide, by decide, by decide, by
    simpa using C1_buildPacket_dynamic_layout 2 [10]
      (by decide) (by decide) (by decide) (by decide)⟩

/-- Claim C2: for every payload argument, encoding BIND returns exactly
`FE FE 03 00 01 FF` and encoding QUERY returns exactly `FE FE 03 01 02 00`,
regardless of the payload supplied. -/
theorem C2_buildPacket_fixed_frames (data : List Nat) :
    buildPacket RequestBIND data = some [0xfe, 0xfe, 0x03, 0x00, 0x01, 0xff] ∧
      buildPacket RequestQUERY data = some [0xfe, 0xfe, 0x03, 0x01, 0x02, 0x00] :=
  ⟨rfl, rfl⟩

/-! ## C6: short status payloads -/

/-- Claim C6: for every payload shorter than 18 bytes, decoding fails (the
`IndexError` raised while building the base field table, reported by the
spec as `DecodeError`) and the stored status record is left exactly as it
was before the call. -/
theorem C6_decode_short_payload (status : StatusRecord) (payload : List Nat)
    (h : payload.length < 18) :
    decodeStatusResult status payload = none ∧
      decodeStatus status payload = status := by
  constructor
  · simp [decodeStatusResult, h]
  · simp [decodeStatus, decodeStatusResult, h]

/-- Witness for C6: a 17-byte payload against a populated status record
fails to decode and leaves the record untouched. -/
theorem C6_decode_short_payload_witness :
    (List.replicate 17 0).length < 18 ∧
      decodeStatusResult [("locked", FieldVal.b true)] (List.replicate 17 0) = none ∧
      decodeStatus [("locked", FieldVal.b true)] (List.replicate 17 0) =
        [("locked", FieldVal.b true)] :=
  ⟨by decide,
   C6_decode_short_payload [("locked", FieldVal.b true)] (List.replicate 17 0)
     (by decide)⟩

/-! ## C8: setValues with no baseline status -/

/-- Claim C8 (corrected), counterexample: with an empty cached status the
call does not produce a `CommandError`-style result — it returns normally
(`None`), with only a debug log; it is silently dropped, though indeed no
packet is written. -/
theorem C8_no_command_error_cex :
    (asyncSetValues [] [("locked", FieldVal.b true)]).1 ≠ CallOutcome.error ∧
      (asyncSetValues [] [("locked", FieldVal.b true)]).2 = none := by decide

/-- Claim C8 (amended): when `async_set_values` is called while the cached
status record is empty, the call returns immediately and normally, writing
no packet to the transport; the rejection is only logged, no error result is
surfaced to the caller. -/
theorem C8_set_values_no_baseline (newValues : StatusRecord) :
    asyncSetValues [] newValues = (CallOutcome.ok, none) := by
  simp [asyncSetValues]

/-! ## Helper lemmas: dict updates with fresh keys append -/

theorem getKey_append_of_none (s t : StatusRecord) (k : String)
    (h : getKey s k = none) : getKey (s ++ t) k = getKey t k := by
  induction s with
  | nil => simp
  | cons p s ih =>
      obtain ⟨k₀, v₀⟩ := p
      by_cases hk : k = k₀
      · simp [getKey, hk] at h
      · simp only [getKey, if_neg hk] at h
        simpa [getKey, hk] using ih h

theorem setKey_eq_append (s : StatusRecord) (k : String) (v : FieldVal)
    (h : getKey s k = none) : setKey s k v = s ++ [(k, v)] := by
  induction s with
  | nil => simp [setKey]
  | cons p s ih =>
      obtain ⟨k₀, v₀⟩ := p
      by_cases hk : k = k₀
      · simp [getKey, hk] at h
      · simp only [getKey, if_neg hk] at h
        simp [setKey, hk, ih h]

theorem updateAll_eq_append (l : StatusRecord) : ∀ s : StatusRecord,
    (∀ k ∈ l.map Prod.fst, getKey s k = none) → (l.map Prod.fst).Nodup →
    updateAll s l = s ++ l := by
  induction l with
  | nil => intro s _ _; simp [updateAll]
  | cons p l ih =>
      intro s hnone hnd
      obtain ⟨k, v⟩ := p
      have hstep : updateAll s ((k, v) :: l) = updateAll (setKey s k v) l := rfl
      have hk : getKey s k = none := hnone k (by simp)
      have hnd' : (l.map Prod.fst).Nodup := (List.nodup_cons.mp hnd).2
      have hkl : k ∉ l.map Prod.fst := (List.nodup_cons.mp hnd).1
      have hrest : ∀ k' ∈ l.map Prod.fst, getKey (s ++ [(k, v)]) k' = none := by
        intro k' hk'
        rw [getKey_append_of_none s _ k' (hnone k' (by simp [hk']))]
        have hne : k' ≠ k := fun he => hkl (he ▸ hk')
        simp [getKey, hne]
      rw [hstep, setKey_eq_append s k v hk, ih (s ++ [(k, v)]) hrest hnd']
      simp

/-! ## Evaluation of `_decode_status` on an empty status dict -/

theorem decodeStatus_nil_base (p : List Nat) (h18 : 18 ≤ p.length)
    (h28 : ¬ 28 ≤ p.length) : decodeStatus [] p = baseFields p := by
  have hlt : ¬ p.length < 18 := by omega
  have h31 : ¬ 31 ≤ p.length := by omega
  have hb : updateAll [] (baseFields p) = [] ++ baseFields p :=
    updateAll_eq_append _ _ (fun k _ => rfl) (by simp [baseFields])
  simp [decodeStatus, decodeStatusResult, hlt, h28, h31, hb]

theorem decodeStatus_nil_dual (p : List Nat)
    (h28 : 28 ≤ p.length) (h31 : ¬ 31 ≤ p.length) :
    decodeStatus [] p = baseFields p ++ dualFields p := by
  have hlt : ¬ p.length < 18 := by omega
  have hb : updateAll [] (baseFields p) = [] ++ baseFields p :=
    updateAll_eq_append _ _ (fun k _ => rfl) (by simp [baseFields])
  have hd : updateAll (baseFields p) (dualFields p) = baseFields p ++ dualFields p := by
    refine updateAll_eq_append _ _ ?_ (by simp [dualFields])
    intro k hk
    simp [dualFields] at hk
    rcases hk with h | h | h | h | h | h | h | h | h | h <;> subst h <;>
      simp [baseFields, getKey]
  simp [decodeStatus, decodeStatusResult, hlt, h28, h31, hb, hd]

theorem decodeStatus_nil_full (p : List Nat)
    (h31 : 31 ≤ p.length) :
    decodeStatus [] p = baseFields p ++ dualFields p ++ extraFields p := by
  have hlt : ¬ p.length < 18 := by omega
  have h28 : 28 ≤ p.length := by omega
  have hb : updateAll [] (baseFields p) = [] ++ baseFields p :=
    updateAll_eq_append _ _ (fun k _ => rfl) (by simp [baseFields])
  have hd : updateAll (baseFields p) (dualFields p) = baseFields p ++ dualFields p := by
    refine updateAll_eq_append _ _ ?_ (by simp [dualFields])
    intro k hk
    simp [dualFields] at hk
    rcases hk with h | h | h | h | h | h | h | h | h | h <;> subst h <;>
      simp [baseFields, getKey]
  have he : updateAll (baseFields p ++ dualFields p) (extraFields p) =
      (baseFields p ++ dualFields p) ++ extraFields p := by
    refine updateAll_eq_append _ _ ?_ (by simp [extraFields])
    intro k hk
    simp [extraFields] at hk
    rcases hk with h | h | h <;> subst h <;>
      simp [baseFields, dualFields, getKey]
  simp [decodeStatus, decodeStatusResult, hlt, h28, h31, hb, hd, he]

/-! ## C5: status decoding field layout -/

/-- Claim C5: for every payload of at least 18 bytes, decoding (into an
empty status record) produces the 18 single-zone fields from byte offsets 0
through 17, and the right-zone fields (`right_target` at offset 18,
`right_ret_diff` and the `right_tc_*` fields at offsets 21 through 25,
`right_current` at 26, `running_status` at 27) are present exactly when the
payload length is at least 28 — so an 18-byte payload yields a record with
no `right_*` keys. -/
theorem C5_decode_fields (p : List Nat) (h18 : 18 ≤ p.length) :
    (getKey (decodeStatus [] p) "locked" = some (.b (p.getD 0 0 ≠ 0)) ∧
     getKey (decodeStatus [] p) "powered_on" = some (.b (p.getD 1 0 ≠ 0)) ∧
     getKey (decodeStatus [] p) "run_mode" = some (.i (p.getD 2 0)) ∧
     getKey (decodeStatus [] p) "bat_saver" = some (.i (p.getD 3 0)) ∧
     getKey (decodeStatus [] p) "left_target" = some (.i (toSignedByte (p.getD 4 0))) ∧
     getKey (decodeStatus [] p) "temp_max" = some (.i (toSignedByte (p.getD 5 0))) ∧
     getKey (decodeStatus [] p) "temp_min" = some (.i (toSignedByte (p.getD 6 0))) ∧
     getKey (decodeStatus [] p) "left_ret_diff" = some (.i (toSignedByte (p.getD 7 0))) ∧
     getKey (decodeStatus [] p) "start_delay" = some (.i (p.getD 8 0)) ∧
     getKey (decodeStatus [] p) "unit" = some (.i (p.getD 9 0)) ∧
     getKey (decodeStatus [] p) "left_tc_hot" = some (.i (toSignedByte (p.getD 10 0))) ∧
     getKey (decodeStatus [] p) "left_tc_mid" = some (.i (toSignedByte (p.getD 11 0))) ∧
     getKey (decodeStatus [] p) "left_tc_cold" = some (.i (toSignedByte (p.getD 12 0))) ∧
     getKey (decodeStatus [] p) "left_tc_halt" = some (.i (toSignedByte (p.getD 13 0))) ∧
     getKey (decodeStatus [] p) "left_current" = some (.i (toSignedByte (p.getD 14 0))) ∧
     getKey (decodeStatus [] p) "bat_percent" = some (.i (p.getD 15 0)) ∧
     getKey (decodeStatus [] p) "bat_vol_int" = some (.i (p.getD 16 0)) ∧
     getKey (decodeStatus [] p) "bat_vol_dec" = some (.i (p.getD 17 0))) ∧
    (getKey (decodeStatus [] p) "right_target" =
        (if 28 ≤ p.length then some (.i (toSignedByte (p.getD 18 0))) else none) ∧
     getKey (decodeStatus [] p) "right_ret_diff" =
        (if 28 ≤ p.length then some (.i (toSignedByte (p.getD 21 0))) else none) ∧
     getKey (decodeStatus [] p) "right_tc_hot" =
        (if 28 ≤ p.length then some (.i (toSignedByte (p.getD 22 0))) else none) ∧
     getKey (decodeStatus [] p) "right_tc_mid" =
        (if 28 ≤ p.length then some (.i (toSignedByte (p.getD 23 0))) else none) ∧
     getKey (decodeStatus [] p) "right_tc_cold" =
        (if 28 ≤ p.length then some (.i (toSignedByte (p.getD 24 0))) else none) ∧
     getKey (decodeStatus [] p) "right_tc_halt" =
        (if 28 ≤ p.length then some (.i (toSignedByte (p.getD 25 0))) else none) ∧
     getKey (decodeStatus [] p) "right_current" =
        (if 28 ≤ p.length then some (.i (toSignedByte (p.getD 26 0))) else none) ∧
     getKey (decodeStatus [] p) "running_status" =
        (if 28 ≤ p.length then some (.i (p.getD 27 0)) else none)) := by
  by_cases h28 : 28 ≤ p.length
  · by_cases h31 : 31 ≤ p.length
    · rw [decodeStatus_nil_full p h31]
      simp [baseFields, dualFields, extraFields, getKey, h28]
    · rw [decodeStatus_nil_dual p h28 h31]
      simp [baseFields, dualFields, getKey, h28]
  · rw [decodeStatus_nil_base p h18 h28]
    simp [baseFields, getKey, h28]

/-- Witness for C5: the spec's 18-byte scenario payload satisfies the length
hypothesis and its decoded record has no `right_target` key. -/
theorem C5_decode_fields_witness :
    18 ≤ ([0, 1, 0, 0, 5, 20, 236, 1, 0, 0, 10, 5, 0, 20, 8, 75, 12, 5] : List Nat).length ∧
      getKey (decodeStatus [] [0, 1, 0, 0, 5, 20, 236, 1, 0, 0, 10, 5, 0, 20, 8, 75, 12, 5])
        "right_target" = none :=
  ⟨by decide, by
    simpa using
      (C5_decode_fields [0, 1, 0, 0, 5, 20, 236, 1, 0, 0, 10, 5, 0, 20, 8, 75, 12, 5]
        (by decide)).2.1⟩

/-! ## C7: building the SET payload -/

theorem toUnsignedByte_bounds (x : Int) :
    0 ≤ toUnsignedByte x ∧ toUnsignedByte x ≤ 255 := by
  unfold toUnsignedByte
  constructor
  · exact Int.emod_nonneg x (by norm_num)
  · have := Int.emod_lt_of_pos x (show (0 : Int) < 256 by norm_num)
    omega

theorem bytearrayOf_eq_some (xs : List Int) (h : ∀ x ∈ xs, 0 ≤ x ∧ x ≤ 255) :
    bytearrayOf xs = some xs := by
  have hall : xs.all (fun x => 0 ≤ x ∧ x ≤ 255) = true := by
    rw [List.all_eq_true]
    intro x hx
    simpa using h x hx
  unfold bytearrayOf
  rw [if_pos hall]

/-- Claim C7 (corrected), counterexample: the claim promises a serialized
14-byte block for every baseline and change map, but the six unmasked
`int(...)` fields must be bytes — with the change `run_mode = 300` the
`bytearray` constructor raises `ValueError` and nothing is serialized. -/
theorem C7_out_of_range_value_cex :
    buildSetOtherPayload [] [("run_mode", FieldVal.i 300)] = none := by decide

/-- Claim C7 (amended): provided each of the six unmasked fields (`locked`,
`powered_on`, `run_mode`, `bat_saver`, `start_delay`, `unit`) of the merged
status lies in 0..255, `_build_set_other_payload` merges the change map over
the baseline status (keys present in the changes take the changed value,
absent keys the baseline value, with defaults `powered_on=1`, `temp_max=20`,
`temp_min=-20`, `left_ret_diff=1`, all `tc_*=0` when the merged status lacks
the key), serializes the 14-byte single-zone block with each temperature
field reduced to an unsigned byte by two's-complement reinterpretation, and
appends the 11-byte right-zone block exactly when `right_current` is present
in the merged status; outside those bounds `bytearray` raises `ValueError`
and no payload is produced. -/
theorem C7_build_set_payload (status newValues : StatusRecord)
    (hnd : (newValues.map Prod.fst).Nodup)
    (hlocked : 0 ≤ overlayInt status newValues "locked" 0 ∧
      overlayInt status newValues "locked" 0 ≤ 255)
    (hpow : 0 ≤ overlayInt status newValues "powered_on" 1 ∧
      overlayInt status newValues "powered_on" 1 ≤ 255)
    (hrun : 0 ≤ overlayInt status newValues "run_mode" 0 ∧
      overlayInt status newValues "run_mode" 0 ≤ 255)
    (hbat : 0 ≤ overlayInt status newValues "bat_saver" 0 ∧
      overlayInt status newValues "bat_saver" 0 ≤ 255)
    (hstart : 0 ≤ overlayInt status newValues "start_delay" 0 ∧
      overlayInt status newValues "start_delay" 0 ≤ 255)
    (hunit : 0 ≤ overlayInt status newValues "unit" 0 ∧
      overlayInt status newValues "unit" 0 ≤ 255) :
    buildSetOtherPayload status newValues =
      some (claimSingleZoneBlock status newValues ++
        (if (overlay status newValues "right_current").isSome then
          claimRightZoneBlock status newValues else [])) ∧
    ((buildSetOtherPayload status newValues).getD []).length =
      (if (overlay status newValues "right_current").isSome then 25 else 14) := by
  have hov : ∀ k, getKey (updateAll status newValues) k = overlay status newValues k := by
    intro k
    rw [getKey_updateAll newValues status k hnd, overlay]
  have hgi : ∀ k d, dictGetInt (updateAll status newValues) k d =
      overlayInt status newValues k d := by
    intro k d
    rw [dictGetInt, overlayInt, hov]
  have hbase := bytearrayOf_eq_some
      [overlayInt status newValues "locked" 0,
       overlayInt status newValues "powered_on" 1,
       overlayInt status newValues "run_mode" 0,
       overlayInt status newValues "bat_saver" 0,
       toUnsignedByte (overlayInt status newValues "left_target" 0),
       toUnsignedByte (overlayInt status newValues "temp_max" 20),
       toUnsignedByte (overlayInt status newValues "temp_min" (-20)),
       toUnsignedByte (overlayInt status newValues "left_ret_diff" 1),
       overlayInt status newValues "start_delay" 0,
       overlayInt status newValues "unit" 0,
       toUnsignedByte (overlayInt status newValues "left_tc_hot" 0),
       toUnsignedByte (overlayInt status newValues "left_tc_mid" 0),
       toUnsignedByte (overlayInt status newValues "left_tc_cold" 0),
       toUnsignedByte (overlayInt status newValues "left_tc_halt" 0)] (by
    intro x hx
    simp only [List.mem_cons, List.not_mem_nil, or_false] at hx
    rcases hx with rfl | rfl | rfl | rfl | rfl | rfl | rfl | rfl | rfl | rfl | rfl | rfl | rfl | rfl
    · exact hlocked
    · exact hpow
    · exact hrun
    · exact hbat
    · exact toUnsignedByte_bounds _
    · exact toUnsignedByte_bounds _
    · exact toUnsignedByte_bounds _
    · exact toUnsignedByte_bounds _
    · exact hstart
    · exact hunit
    · exact toUnsignedByte_bounds _
    · exact toUnsignedByte_bounds _
    · exact toUnsignedByte_bounds _
    · exact toUnsignedByte_bounds _)
  have hright := bytearrayOf_eq_some
      [toUnsignedByte (overlayInt status newValues "right_target" 0),
       0,
       0,
       toUnsignedByte (overlayInt status newValues "right_ret_diff" 1),
       toUnsignedByte (overlayInt status newValues "right_tc_hot" 0),
       toUnsignedByte (overlayInt status newValues "right_tc_mid" 0),
       toUnsignedByte (overlayInt status newValues "right_tc_cold" 0),
       toUnsignedByte (overlayInt status newValues "right_tc_halt" 0),
       0,
       0,
       0] (by
    intro x hx
    simp only [List.mem_cons, List.not_mem_nil, or_false] at hx
    rcases hx with rfl | rfl | rfl | rfl | rfl | rfl | rfl | rfl | rfl | rfl | rfl
    · exact toUnsignedByte_bounds _
    · exact ⟨by norm_num, by norm_num⟩
    · exact ⟨by norm_num, by norm_num⟩
    · exact toUnsignedByte_bounds _
    · exact toUnsignedByte_bounds _
    · exact toUnsignedByte_bounds _
    · exact toUnsignedByte_bounds _
    · exact toUnsignedByte_bounds _
    · exact ⟨by norm_num, by norm_num⟩
    · exact ⟨by norm_num, by norm_num⟩
    · exact ⟨by norm_num, by norm_num⟩)
  have hmain : buildSetOtherPayload status newValues =
      some (claimSingleZoneBlock status newValues ++
        (if (overlay status newValues "right_current").isSome then
          claimRightZoneBlock status newValues else [])) := by
    simp only [buildSetOtherPayload, hgi, hov]
    rw [hbase]
    simp only [Option.elim_some]
    by_cases h : (overlay status newValues "right_current").isSome
    · rw [if_pos h, hright]
      simp only [Option.elim_some]
      rw [if_pos h]
      simp [claimSingleZoneBlock, claimRightZoneBlock]
    · rw [if_neg h, if_neg h]
      simp [claimSingleZoneBlock]
  refine ⟨hmain, ?_⟩
  rw [hmain]
  by_cases h : (overlay status newValues "right_current").isSome
  · simp [h, claimSingleZoneBlock, claimRightZoneBlock]
  · simp [h, claimSingleZoneBlock]

/-- Witness for C7: a dual-zone baseline (a `right_current` key) with a
single-key change map satisfies every hypothesis — the six unmasked merged
fields all take in-range values — and yields a 25-byte payload. -/
theorem C7_build_set_payload_witness :
    (([("left_target", FieldVal.i (-4))] : StatusRecord).map Prod.fst).Nodup ∧
      (0 ≤ overlayInt [("right_current", FieldVal.i 3)]
          [("left_target", FieldVal.i (-4))] "locked" 0 ∧
        overlayInt [("right_current", FieldVal.i 3)]
          [("left_target", FieldVal.i (-4))] "locked" 0 ≤ 255) ∧
      (0 ≤ overlayInt [("right_current", FieldVal.i 3)]
          [("left_target", FieldVal.i (-4))] "powered_on" 1 ∧
        overlayInt [("right_current", FieldVal.i 3)]
          [("left_target", FieldVal.i (-4))] "powered_on" 1 ≤ 255) ∧
      (0 ≤ overlayInt [("right_current", FieldVal.i 3)]
          [("left_target", FieldVal.i (-4))] "run_mode" 0 ∧
        overlayInt [("right_current", FieldVal.i 3)]
          [("left_target", FieldVal.i (-4))] "run_mode" 0 ≤ 255) ∧
      (0 ≤ overlayInt [("right_current", FieldVal.i 3)]
          [("left_target", FieldVal.i (-4))] "bat_saver" 0 ∧
        overlayInt [("right_current", FieldVal.i 3)]
          [("left_target", FieldVal.i (-4))] "bat_saver" 0 ≤ 255) ∧
      (0 ≤ overlayInt [("right_current", FieldVal.i 3)]
          [("left_target", FieldVal.i (-4))] "start_delay" 0 ∧
        overlayInt [("right_current", FieldVal.i 3)]
          [("left_target", FieldVal.i (-4))] "start_delay" 0 ≤ 255) ∧
      (0 ≤ overlayInt [("right_current", FieldVal.i 3)]
          [("left_target", FieldVal.i (-4))] "unit" 0 ∧
        overlayInt [("right_current", FieldVal.i 3)]
          [("left_target", FieldVal.i (-4))] "unit" 0 ≤ 255) ∧
      ((buildSetOtherPayload [("right_current", FieldVal.i 3)]
        [("left_target", FieldVal.i (-4))]).getD []).length = 25 := by
  refine ⟨by decide, by decide, by decide, by decide, by decide, by decide, by decide, ?_⟩
  have h := (C7_build_set_payload [("right_current", FieldVal.i 3)]
    [("left_target", FieldVal.i (-4))] (by decide) (by decide) (by decide)
    (by decide) (by decide) (by decide) (by decide)).2
  rw [h]
  decide

/-! ## C9: poll-loop staleness transition -/

/-- Claim C9: in every poll-loop iteration, if the elapsed time since the
last successful query exceeds 300 seconds and the device is currently marked
available, the iteration sets `is_available` to false and clears the cached
status record in the same step; and one missed poll below the threshold
changes neither the flag nor the cached status. -/
theorem C9_poll_staleness (s : PollState) (e : PollEnv) :
    ((e.tCheck - (pollQuery s e).last > 300 ∧ (pollQuery s e).avail = true) →
      (startPollingIteration s e).avail = false ∧
        (startPollingIteration s e).status = []) ∧
    ((e.connected0 = true ∧ e.queryOk = false ∧ e.tCheck - s.last ≤ 300) →
      (startPollingIteration s e).avail = s.avail ∧
        (startPollingIteration s e).status = s.status) := by
  constructor
  · rintro ⟨h1, h2⟩
    simp [startPollingIteration, pollCheckStale, h1, h2]
  · rintro ⟨hc, hq, ht⟩
    have hrec : pollReconnect s e = s := by simp [pollReconnect, hc]
    have hqe : pollQuery s e = s := by simp [pollQuery, hq, hrec]
    have hcond : ¬ (e.tCheck - s.last > 300 ∧ s.avail = true) := by
      rintro ⟨hgt, _⟩
      omega
    simp [startPollingIteration, hqe, pollCheckStale, hcond]

/-- Witness for C9: a populated, available state whose last success was 301
seconds before the staleness check, in an iteration whose query failed,
becomes unavailable with an empty status record. -/
theorem C9_poll_staleness_witness :
    (startPollingIteration ⟨[("locked", FieldVal.b false)], true, 0⟩
        ⟨true, false, false, 0, 0, 301⟩).avail = false ∧
      (startPollingIteration ⟨[("locked", FieldVal.b false)], true, 0⟩
        ⟨true, false, false, 0, 0, 301⟩).status = [] :=
  (C9_poll_staleness ⟨[("locked", FieldVal.b false)], true, 0⟩
    ⟨true, false, false, 0, 0, 301⟩).1 ⟨by decide, by decide⟩

/-! ## Helper lemmas: preamble search and the extraction loop -/

theorem findPre_drop : ∀ (buf : List Nat) (i : Nat), findPre buf = some i →
    ∃ rest, buf.drop i = 0xfe :: 0xfe :: rest := by
  intro buf
  induction buf with
  | nil => intro i h; simp [findPre] at h
  | cons a l ih =>
      intro i h
      cases l with
      | nil => simp [findPre] at h
      | cons b r =>
          rw [findPre] at h
          by_cases hab : a = 0xfe ∧ b = 0xfe
          · rw [if_pos hab] at h
            obtain ⟨ha, hb⟩ := hab
            cases h
            exact ⟨r, by simp [ha, hb]⟩
          · rw [if_neg hab] at h
            cases hj : findPre (b :: r) with
            | none => rw [hj] at h; simp at h
            | some j =>
                rw [hj] at h
                simp at h
                obtain ⟨rest, hrest⟩ := ih j hj
                cases h
                exact ⟨rest, by simpa using hrest⟩

theorem findPre_preamble (rest : List Nat) :
    findPre (0xfe :: 0xfe :: rest) = some 0 := by
  simp [findPre]

theorem extractLoop_nil (fuel : Nat) : extractLoop fuel [] = ([], []) := by
  cases fuel <;> rfl

theorem extractLoop_succ_cons (fuel a : Nat) (l : List Nat) :
    extractLoop (fuel + 1) (a :: l) =
      (findPre (a :: l)).elim ([], []) (fun i =>
        let b2 := (a :: l).drop i
        if b2.length < 3 then (b2, [])
        else
          let len := b2.getD 2 0
          if b2.length < 3 + len then (b2, [])
          else
            let pkt := b2.take (3 + len)
            let r := extractLoop fuel (b2.drop (3 + len))
            (r.1, pkt :: r.2)) := rfl

theorem extractLoop_fuel_irrelevant : ∀ (f g : Nat) (buf : List Nat),
    buf.length ≤ f → buf.length ≤ g → extractLoop f buf = extractLoop g buf := by
  intro f
  induction f with
  | zero =>
      intro g buf hf _
      have hbuf : buf = [] := by
        cases buf with
        | nil => rfl
        | cons a l => simp at hf
      subst hbuf
      rw [extractLoop_nil, extractLoop_nil]
  | succ f ih =>
      intro g buf hf hg
      cases buf with
      | nil => rw [extractLoop_nil, extractLoop_nil]
      | cons a l =>
          cases g with
          | zero => simp at hg
          | succ g =>
              rw [extractLoop_succ_cons, extractLoop_succ_cons]
              cases hfp : findPre (a :: l) with
              | none => rfl
              | some i =>
                  simp only [Option.elim_some]
                  split_ifs with h3 h4
                  · rfl
                  · rfl
                  · have hlen : (((a :: l).drop i).drop
                        (3 + ((a :: l).drop i).getD 2 0)).length ≤ f ∧
                        (((a :: l).drop i).drop
                        (3 + ((a :: l).drop i).getD 2 0)).length ≤ g := by
                      simp only [List.length_drop, List.length_cons] at hf hg ⊢
                      omega
                    rw [ih g _ hlen.1 hlen.2]

theorem extractLoop_inv : ∀ (fuel : Nat) (buf : List Nat),
    buf.length ≤ fuel → BufInv (extractLoop fuel buf).1 := by
  intro fuel
  induction fuel with
  | zero =>
      intro buf hb
      have hbuf : buf = [] := by
        cases buf with
        | nil => rfl
        | cons a l => simp at hb
      subst hbuf
      rw [extractLoop_nil]
      exact Or.inl rfl
  | succ f ih =>
      intro buf hb
      cases buf with
      | nil =>
          rw [extractLoop_nil]
          exact Or.inl rfl
      | cons a l =>
          rw [extractLoop_succ_cons]
          cases hfp : findPre (a :: l) with
          | none => exact Or.inl rfl
          | some i =>
              obtain ⟨rest, hrest⟩ := findPre_drop (a :: l) i hfp
              simp only [Option.elim_some]
              split_ifs with h3 h4
              · right
                have h3' : (0xfe :: 0xfe :: rest).length < 3 := by
                  rw [← hrest]
                  exact h3
                have hr : rest = [] := by
                  simp at h3'
                  exact List.length_eq_zero.mp (by omega)
                subst hr
                rw [hrest]
                exact ⟨rfl, by simp [List.getD]⟩
              · right
                rw [hrest] at h4
                rw [hrest]
                refine ⟨by simp, ?_⟩
                simpa using h4
              · have hlen : (((a :: l).drop i).drop
                    (3 + ((a :: l).drop i).getD 2 0)).length ≤ f := by
                  simp only [List.length_drop, List.length_cons] at hb ⊢
                  omega
                exact ih _ hlen

/-! ## C10: receive-buffer invariant -/

/-- Claim C10: after every invocation of the notification handler returns,
the receive buffer is either empty or begins with the preamble `FE FE` and
holds fewer bytes than the total length implied by its frame, so it never
retains a complete unextracted frame, and in particular never retains a
single trailing `0xFE`. -/
theorem C10_receive_buffer_invariant (buffer data : List Nat) :
    BufInv (notificationHandler buffer data).1 :=
  extractLoop_inv (buffer ++ data).length (buffer ++ data) le_rfl

/-! ## C4: feeding the fixed QUERY frame -/

/-- Claim C4 (corrected), counterexample: feeding `FE FE 03 01 02 00` into a
fresh codec yields one frame whose payload (`frame[4:]`) is the two trailing
checksum bytes `02 00` — not empty as the claim states. -/
theorem C4_query_frame_payload_not_empty_cex :
    (notificationHandler [] [0xfe, 0xfe, 0x03, 0x01, 0x02, 0x00]).2 =
      [[0xfe, 0xfe, 0x03, 0x01, 0x02, 0x00]] ∧
      framePayload [0xfe, 0xfe, 0x03, 0x01, 0x02, 0x00] ≠ [] := by decide

/-- Claim C4 (amended): feeding the six bytes `FE FE 03 01 02 00` into a
codec with an empty receive buffer yields exactly one frame, whose command
byte is 0x01 and whose payload is the two bytes `02 00` (the trailing
checksum, which frame extraction does not strip), leaving the buffer
empty. -/
theorem C4_query_frame_feed :
    (notificationHandler [] [0xfe, 0xfe, 0x03, 0x01, 0x02, 0x00]).2.length = 1 ∧
      frameCmd ((notificationHandler [] [0xfe, 0xfe, 0x03, 0x01, 0x02, 0x00]).2.headD []) =
        0x01 ∧
      framePayload
          ((notificationHandler [] [0xfe, 0xfe, 0x03, 0x01, 0x02, 0x00]).2.headD []) =
        [0x02, 0x00] ∧
      (notificationHandler [] [0xfe, 0xfe, 0x03, 0x01, 0x02, 0x00]).1 = [] := by
  decide

/-! ## Helper lemmas: extraction of whole frames and of proper prefixes -/

theorem extractLoop_full (fuel L : Nat) (body : List Nat) (hL : body.length = L) :
    extractLoop (fuel + 1) (0xfe :: 0xfe :: L :: body) =
      ([], [0xfe :: 0xfe :: L :: body]) := by
  have hlen : (0xfe :: 0xfe :: L :: body).length = L + 3 := by
    simp [hL]
  rw [extractLoop_succ_cons, findPre_preamble]
  simp only [Option.elim_some, List.drop_zero]
  have hgd : (0xfe :: 0xfe :: L :: body).getD 2 0 = L := rfl
  rw [hgd, hlen, if_neg (by omega), if_neg (by omega),
    List.take_of_length_le (by rw [hlen]; omega),
    List.drop_eq_nil_of_le (by rw [hlen]; omega), extractLoop_nil]

theorem extractLoop_prefix (fuel L : Nat) (body p : List Nat) (hL : body.length = L)
    (hp : p <+: 0xfe :: 0xfe :: L :: body) (h2 : 2 ≤ p.length)
    (hne : p ≠ 0xfe :: 0xfe :: L :: body) :
    extractLoop (fuel + 1) p = (p, []) := by
  cases p with
  | nil => simp at h2
  | cons x p' =>
      cases p' with
      | nil => simp at h2
      | cons y q =>
          obtain ⟨hx, hp2⟩ := List.cons_prefix_cons.mp hp
          obtain ⟨hy, hp3⟩ := List.cons_prefix_cons.mp hp2
          subst hx
          subst hy
          rw [extractLoop_succ_cons, findPre_preamble]
          simp only [Option.elim_some, List.drop_zero]
          cases q with
          | nil => rw [if_pos (by simp)]
          | cons z r =>
              obtain ⟨hz, hr⟩ := List.cons_prefix_cons.mp hp3
              have hrlt : r.length < L := by
                have hle := hr.length_le
                rcases Nat.lt_or_ge r.length body.length with hlt | hge
                · omega
                · have hrb : r = body := hr.eq_of_length (by omega)
                  exact absurd (by rw [hrb, hz]) hne
              have hgd : (0xfe :: 0xfe :: z :: r).getD 2 0 = z := rfl
              have hlp : (0xfe :: 0xfe :: z :: r).length = r.length + 3 := by simp
              rw [hgd, hlp, if_neg (by omega), if_pos (by omega)]

/-! ## Helper lemmas: feeding a frame in chunks -/

theorem flatten_nil_of_nonempty (cs : List (List Nat))
    (h : ∀ c ∈ cs, c ≠ []) (hj : cs.flatten = []) : cs = [] := by
  cases cs with
  | nil => rfl
  | cons c cs =>
      simp at hj
      exact absurd hj.1 (h c (by simp))

theorem feedAll_prefix_run (L : Nat) (body : List Nat) (hL : body.length = L) :
    ∀ (cs : List (List Nat)) (p : List Nat),
      (∀ c ∈ cs, c ≠ []) → 2 ≤ p.length → p ≠ 0xfe :: 0xfe :: L :: body →
      p ++ cs.flatten = 0xfe :: 0xfe :: L :: body →
      feedAll p cs = ([], [0xfe :: 0xfe :: L :: body]) := by
  intro cs
  induction cs with
  | nil =>
      intro p _ _ hne hj
      simp at hj
      exact absurd hj hne
  | cons c cs ih =>
      intro p hc h2 hne hj
      have hj' : (p ++ c) ++ cs.flatten = 0xfe :: 0xfe :: L :: body := by
        simpa [List.append_assoc] using hj
      by_cases hfull : p ++ c = 0xfe :: 0xfe :: L :: body
      · have hflat : cs.flatten = [] := by
          rw [hfull] at hj'
          have h0 : (0xfe :: 0xfe :: L :: body) ++ cs.flatten =
              (0xfe :: 0xfe :: L :: body) ++ [] := by
            rw [List.append_nil]
            exact hj'
          exact List.append_cancel_left h0
        have hcs : cs = [] :=
          flatten_nil_of_nonempty cs (fun d hd => hc d (by simp [hd])) hflat
        subst hcs
        have hfr : notificationHandler p c = ([], [0xfe :: 0xfe :: L :: body]) := by
          rw [notificationHandler, extractPackets, hfull]
          have hlen : (0xfe :: 0xfe :: L :: body).length = (L + 2) + 1 := by simp [hL]
          rw [hlen, extractLoop_full (L + 2) L body hL]
        simp [feedAll, hfr]
      · have hpre : (p ++ c) <+: 0xfe :: 0xfe :: L :: body := ⟨cs.flatten, hj'⟩
        have h2' : 2 ≤ (p ++ c).length := by simp; omega
        have hnh : notificationHandler p c = (p ++ c, []) := by
          rw [notificationHandler, extractPackets]
          obtain ⟨n, hn⟩ : ∃ n, (p ++ c).length = n + 1 := ⟨(p ++ c).length - 1, by omega⟩
          rw [hn, extractLoop_prefix n L body (p ++ c) hL hpre h2' hfull]
        have hrest := ih (p ++ c) (fun d hd => hc d (by simp [hd])) h2' hfull hj'
        simp [feedAll, hnh, hrest]

/-! ## Helper lemma: every encoded packet has the preamble-length-body shape -/

theorem buildPacket_frame_shape (cmd : Nat) (data frame : List Nat)
    (h : buildPacket cmd data = some frame) :
    ∃ L body, frame = 0xfe :: 0xfe :: L :: body ∧ body.length = L := by
  unfold buildPacket at h
  split_ifs at h with h0 h1
  · exact ⟨3, [0x00, 0x01, 0xff], (Option.some_inj.mp h).symm, rfl⟩
  · exact ⟨3, [0x01, 0x02, 0x00], (Option.some_inj.mp h).symm, rfl⟩
  · dsimp only at h
    split_ifs at h with h2
    have h' := Option.some_inj.mp h
    refine ⟨(cmd :: data).length + 2,
      cmd :: (data ++
        [checksum (0xfe :: 0xfe :: ((cmd :: data).length + 2) :: cmd :: data) / 256,
         checksum (0xfe :: 0xfe :: ((cmd :: data).length + 2) :: cmd :: data) % 256]),
      ?_, ?_⟩
    · rw [← h']
      simp
    · simp

/-! ## C3: chunked feeding of an encoded frame -/

/-- Claim C3 (corrected), counterexample: splitting the fixed QUERY frame
`FE FE 03 01 02 00` so that the first chunk is the single byte `FE` loses
the frame — the handler finds no `FE FE` preamble in `[FE]` and clears the
buffer — whereas feeding the frame whole yields it. -/
theorem C3_single_byte_first_chunk_cex :
    (feedAll [] [[0xfe], [0xfe, 0x03, 0x01, 0x02, 0x00]]).2 = [] ∧
      ([[0xfe], [0xfe, 0x03, 0x01, 0x02, 0x00]] : List (List Nat)).flatten =
        [0xfe, 0xfe, 0x03, 0x01, 0x02, 0x00] ∧
      (notificationHandler [] [0xfe, 0xfe, 0x03, 0x01, 0x02, 0x00]).2 =
        [[0xfe, 0xfe, 0x03, 0x01, 0x02, 0x00]] := by decide

/-- Claim C3 (amended): for every validly encoded frame and every splitting
of its bytes into non-empty chunks whose first chunk holds at least the two
preamble bytes, feeding the chunks one by one into a fresh codec yields the
same result — the same single decoded frame — as feeding the whole frame at
once. -/
theorem C3_feed_chunk_invariance (cmd : Nat) (data frame : List Nat)
    (chunks : List (List Nat)) (henc : buildPacket cmd data = some frame)
    (hne : ∀ c ∈ chunks, c ≠ []) (hj : chunks.flatten = frame)
    (hhd : 2 ≤ (chunks.headD []).length) :
    feedAll [] chunks = notificationHandler [] frame ∧
      (notificationHandler [] frame).2 = [frame] := by
  obtain ⟨L, body, hfr, hL⟩ := buildPacket_frame_shape cmd data frame henc
  subst hfr
  have hfull : notificationHandler [] (0xfe :: 0xfe :: L :: body) =
      ([], [0xfe :: 0xfe :: L :: body]) := by
    rw [notificationHandler, List.nil_append, extractPackets]
    have hlen : (0xfe :: 0xfe :: L :: body).length = (L + 2) + 1 := by simp [hL]
    rw [hlen, extractLoop_full (L + 2) L body hL]
  refine ⟨?_, by rw [hfull]⟩
  rw [hfull]
  cases chunks with
  | nil => simp at hj
  | cons c cs =>
      have hcflat : c ++ cs.flatten = 0xfe :: 0xfe :: L :: body := by simpa using hj
      have h2c : 2 ≤ c.length := by simpa using hhd
      by_cases hcfull : c = 0xfe :: 0xfe :: L :: body
      · have hflat : cs.flatten = [] := by
          rw [hcfull] at hcflat
          have h0 : (0xfe :: 0xfe :: L :: body) ++ cs.flatten =
              (0xfe :: 0xfe :: L :: body) ++ [] := by
            rw [List.append_nil]
            exact hcflat
          exact List.append_cancel_left h0
        have hcs : cs = [] :=
          flatten_nil_of_nonempty cs (fun d hd => hne d (by simp [hd])) hflat
        subst hcs
        subst hcfull
        simp [feedAll, hfull]
      · have hnh : notificationHandler [] c = (c, []) := by
          rw [notificationHandler, List.nil_append, extractPackets]
          obtain ⟨n, hn⟩ : ∃ n, c.length = n + 1 := ⟨c.length - 1, by omega⟩
          have hpre : c <+: 0xfe :: 0xfe :: L :: body := ⟨cs.flatten, hcflat⟩
          rw [hn, extractLoop_prefix n L body c hL hpre h2c hcfull]
        have hrest := feedAll_prefix_run L body hL cs c
          (fun d hd => hne d (by simp [hd])) h2c hcfull hcflat
        simp [feedAll, hnh, hrest]

/-- Witness for C3: the SET frame `FE FE 04 02 07 02 09` (command 2, payload
`[7]`) split as `[FE FE] ++ [04 02 07 02 09]` feeds to the same single frame
as feeding it whole. -/
theorem C3_feed_chunk_invariance_witness :
    buildPacket 2 [7] = some [0xfe, 0xfe, 0x04, 0x02, 0x07, 0x02, 0x09] ∧
      ([[0xfe, 0xfe], [0x04, 0x02, 0x07, 0x02, 0x09]] : List (List Nat)).flatten =
        [0xfe, 0xfe, 0x04, 0x02, 0x07, 0x02, 0x09] ∧
      feedAll [] [[0xfe, 0xfe], [0x04, 0x02, 0x07, 0x02, 0x09]] =
        notificationHandler [] [0xfe, 0xfe, 0x04, 0x02, 0x07, 0x02, 0x09] := by
  refine ⟨by decide, by decide, ?_⟩
  exact (C3_feed_chunk_invariance 2 [7] [0xfe, 0xfe, 0x04, 0x02, 0x07, 0x02, 0x09]
    [[0xfe, 0xfe], [0x04, 0x02, 0x07, 0x02, 0x09]]
    (by decide) (by decide) (by decide) (by decide)).1

end Alpicool
